import Mathlib

/-!
Verification of the market-data formatter, view controller and helper
routines of the crypto dashboard repository (src/main.py, src/app.py,
src/api/motivational.py), via a shallow embedding in Lean 4.

Conventions of the embedding:
* Python `decimal.Decimal` values are embedded as `Dec`, an exact
  mantissa/exponent pair mirroring `Decimal`'s representation; `Dec.toRat`
  gives the exact rational value and `Dec.sub` is exact subtraction, as
  `Decimal` subtraction of exactly-parsed values is exact.
* `pandas` timestamps are embedded as natural-number keys produced by a
  date parser for the canonical `YYYY-MM-DD` strings the market API
  returns; an unparseable string makes the parser fail, as `pd.to_datetime`
  raises.
* Fallible Python code (exceptions such as `KeyError`, `InvalidOperation`,
  date-parse errors, `ValueError` from `random.randint`) is embedded with
  `Option`, `none` standing for a raised exception.
* A pandas DataFrame built from a uniform-schema JSON record list is
  embedded as a `Frame` of three optional columns (`none` = the column is
  absent because the records lack that key, so a column access raises
  `KeyError`).
* `random.randint(lo, hi)` is embedded with an explicit oracle draw `d`;
  any `d` with `lo ≤ d ≤ hi` is a possible return value, and `hi < lo`
  (the empty-range case) raises `ValueError`.
-/

namespace CryptoSpec

/-! ## Exact decimals -/

/-- An exact `decimal.Decimal` value: `mant / 10 ^ scale`. -/
structure Dec where
  mant : Int
  scale : Nat
deriving DecidableEq, Repr

/-- The exact rational value of a `Dec`. -/
def Dec.toRat (d : Dec) : Rat := (d.mant : Rat) / (((10 : Nat) ^ d.scale : Nat) : Rat)

/-- Exact `Decimal` subtraction: align the exponents, subtract mantissas. -/
def Dec.sub (a b : Dec) : Dec :=
  let s := max a.scale b.scale
  ⟨a.mant * ((10 : Nat) ^ (s - a.scale) : Nat) - b.mant * ((10 : Nat) ^ (s - b.scale) : Nat), s⟩

/-- Embeds the Python comparison `x > 0` on a `Decimal`. -/
def Dec.isPos (a : Dec) : Bool := decide (0 < a.mant)

/-! ## String parsing (`Decimal(str)` and `pd.to_datetime(str)`) -/

/-- ASCII decimal digit test. -/
def isDigitChar (c : Char) : Bool := 48 ≤ c.toNat && c.toNat ≤ 57

/-- Accumulates a digit string into a natural number; fails on a non-digit. -/
def parseDigitsAux (acc : Nat) : List Char → Option Nat
  | [] => some acc
  | c :: cs => if isDigitChar c then parseDigitsAux (acc * 10 + (c.toNat - 48)) cs else none

/-- Parses a non-empty all-digit character list; `none` otherwise. -/
def parseDigits (cs : List Char) : Option Nat :=
  match cs with
  | [] => none
  | _ :: _ => parseDigitsAux 0 cs

/-- Parses a (possibly empty) digit list into its value together with the
number of digits read, for use as a fractional part. -/
def parseFracAux (acc k : Nat) : List Char → Option (Nat × Nat)
  | [] => some (acc, k)
  | c :: cs => if isDigitChar c then parseFracAux (acc * 10 + (c.toNat - 48)) (k + 1) cs else none

/-- Splits a character list on a separator, like Python `str.split(sep)`
for a one-character separator. -/
def splitOnChar (sep : Char) : List Char → List (List Char)
  | [] => [[]]
  | c :: cs =>
      match splitOnChar sep cs with
      | [] => [[]]
      | g :: gs => if c = sep then [] :: g :: gs else (c :: g) :: gs

/-- Embeds `decimal.Decimal(<string>)` for the plain decimal strings the
market API produces: optional sign, integer part, optional fractional part
(at least one digit overall). Returns the exact value; `none` embeds a
raised `InvalidOperation`. -/
def parseDecChars (cs : List Char) : Option Dec :=
  let signBody : Int × List Char :=
    match cs with
    | c :: rest => if c.toNat = 45 then (-1, rest) else if c.toNat = 43 then (1, rest) else (1, cs)
    | [] => (1, [])
  match splitOnChar (Char.ofNat 46) signBody.2 with
  | [ip] => (parseDigits ip).map fun n => Dec.mk (signBody.1 * (n : Int)) 0
  | [ip, fp] =>
      if ip.isEmpty && fp.isEmpty then none
      else do
        let ipv ← if ip.isEmpty then some 0 else parseDigits ip
        let fv ← parseFracAux 0 0 fp
        pure (Dec.mk (signBody.1 * ((ipv * 10 ^ fv.2 + fv.1 : Nat) : Int)) fv.2)
  | _ => none

/-- `Decimal` construction from a whole string. -/
def parseDec (s : String) : Option Dec := parseDecChars s.data

/-- Embeds `pd.to_datetime(<string>)` for the canonical `YYYY-MM-DD`
strings of the market API, as an order-preserving natural-number key
(`y * 10000 + m * 100 + d`); `none` embeds a raised parse error. -/
def parseDatetimeChars (cs : List Char) : Option Nat :=
  match splitOnChar (Char.ofNat 45) cs with
  | [ys, ms, ds] => do
      let y ← parseDigits ys
      let m ← parseDigits ms
      let d ← parseDigits ds
      if 1 ≤ m ∧ m ≤ 12 ∧ 1 ≤ d ∧ d ≤ 31 then pure (y * 10000 + m * 100 + d) else none
  | _ => none

/-- Date parsing from a whole string. -/
def parseDatetime (s : String) : Option Nat := parseDatetimeChars s.data

/-! ## Frames and the formatter `cryptoLineGraphCreation` -/

/-- One DataFrame cell: a raw string from the JSON response, an already
converted `Decimal`, or an already converted timestamp (the latter two
arise because the formatter assigns converted columns back into the
frame). -/
inductive Cell where
  | str (s : String)
  | dec (q : Dec)
  | time (t : Nat)
deriving DecidableEq, Repr

/-- Embeds the column conversion `lambda x: Decimal(x)`: parses a string
cell, is the identity on an already converted `Decimal` cell (Python's
`Decimal(Decimal(x)) == Decimal(x)`), and fails on a timestamp cell. -/
def cellToDec : Cell → Option Dec
  | .str s => parseDec s
  | .dec q => some q
  | .time _ => none

/-- Embeds `pd.to_datetime` on one cell: parses a string cell, is the
identity on an already converted timestamp cell (`pd.to_datetime` is
idempotent on timestamps). Conversion of `Decimal` cells to timestamps
does not occur in any flow of the program and is embedded as failure. -/
def cellToTime : Cell → Option Nat
  | .str s => parseDatetime s
  | .time t => some t
  | .dec _ => none

/-- Converts a whole column, failing if any cell fails (one bad value makes
the pandas `apply` / `to_datetime` call raise for the whole column). -/
def parseCol (f : Cell → Option β) : List Cell → Option (List β)
  | [] => some []
  | c :: cs =>
      match f c, parseCol f cs with
      | some b, some bs => some (b :: bs)
      | _, _ => none

/-- Embeds the DataFrame passed to `cryptoLineGraphCreation`: the three
columns the formatter touches. `none` embeds an absent column, on which a
column access raises `KeyError`. -/
structure Frame where
  datetime : Option (List Cell)
  open_ : Option (List Cell)
  close : Option (List Cell)
deriving DecidableEq, Repr

/-- One fully parsed row, as sorted by `df.sort_values(by="datetime")`. -/
structure Row where
  datetime : Nat
  close : Dec
deriving DecidableEq, Repr

/-- One output point of the formatter: parsed datetime and close, the
derived `change` column (`none` embeds pandas `NaN`) and the derived
`marker_color` column. -/
structure OutRow where
  datetime : Nat
  close : Dec
  change : Option Dec
  marker : String
deriving DecidableEq, Repr

/-- Row comparison used by `df.sort_values(by="datetime")`. -/
def rowLe (a b : Row) : Prop := a.datetime ≤ b.datetime

instance : DecidableRel rowLe := fun a b => inferInstanceAs (Decidable (a.datetime ≤ b.datetime))

instance : IsTotal Row rowLe := ⟨fun a b => Nat.le_total a.datetime b.datetime⟩

instance : IsTrans Row rowLe := ⟨fun _ _ _ h₁ h₂ => Nat.le_trans h₁ h₂⟩

/-- Embeds `Series.shift(1)`: first element becomes missing (`NaN`), the
rest are the previous elements. -/
def shiftOne (l : List Dec) : List (Option Dec) :=
  none :: l.dropLast.map some

/-- Embeds `df["close"].diff()`, which pandas computes as
`s - s.shift(1)` with masked (NaN-propagating) subtraction. -/
def seriesDiff (l : List Dec) : List (Option Dec) :=
  List.zipWith (fun a b => match b with | some p => some (Dec.sub a p) | none => none) l (shiftOne l)

/-- Embeds `lambda x: "green" if x > 0 else "red"` applied to the `change`
column: a missing change (`NaN`) compares false under `> 0` in Python, so
it is coloured `"red"`. -/
def markerColor : Option Dec → String
  | some c => if c.isPos then "green" else "red"
  | none => "red"

/-- The frame after `cryptoLineGraphCreation` has assigned the converted
columns back in place (the sort result is bound to a fresh local name, so
the caller's frame keeps its original row order). -/
def writeBack (ts : List Nat) (ops cls : List Dec) : Frame :=
  { datetime := some (ts.map Cell.time)
    open_ := some (ops.map Cell.dec)
    close := some (cls.map Cell.dec) }

/-- The chart data computed by `cryptoLineGraphCreation` after the column
conversions: rows sorted by datetime, the diff of the sorted close column,
and marker colours. -/
def buildOut (ts : List Nat) (cls : List Dec) : List OutRow :=
  let rows := List.zipWith Row.mk ts cls
  let sorted := List.insertionSort rowLe rows
  let changes := seriesDiff (sorted.map Row.close)
  List.zipWith (fun r ch => OutRow.mk r.datetime r.close ch (markerColor ch)) sorted changes

/-- Embeds the operative (second) definition of
`CryptoView.cryptoLineGraphCreation` in src/main.py: converts the
`datetime`, `open` and `close` columns in place, sorts a local copy by
datetime, derives `change` and `marker_color`, and returns the mutated
frame together with the plotted points. `none` embeds a raised
exception. -/
def cryptoLineGraphCreation (f : Frame) : Option (Frame × List OutRow) :=
  (f.datetime.bind (parseCol cellToTime)).bind fun ts =>
  (f.open_.bind (parseCol cellToDec)).bind fun ops =>
  (f.close.bind (parseCol cellToDec)).bind fun cls =>
  some (writeBack ts ops cls, buildOut ts cls)

/-- Embeds the first (shadowed) definition of
`CryptoView.cryptoLineGraphCreation` in src/main.py: it converts only the
`datetime` and `close` columns (not `open`) and sorts the frame in place
(`inplace=True`), so the returned frame is sorted and keeps the raw `open`
column. -/
def cryptoLineGraphCreationV1 (f : Frame) : Option (Frame × List OutRow) :=
  (f.datetime.bind (parseCol cellToTime)).bind fun ts =>
  (f.close.bind (parseCol cellToDec)).bind fun cls =>
  let rows := List.zipWith Row.mk ts cls
  let sorted := List.insertionSort rowLe rows
  some ({ datetime := some ((sorted.map Row.datetime).map Cell.time)
          open_ := f.open_
          close := some ((sorted.map Row.close).map Cell.dec) },
        buildOut ts cls)

/-! ## API requests of the two `selectedCryptoChart` definitions -/

/-- The `(endpoint, query-parameter)` pairs requested, in order, by the
first textual definition of `CryptoView.selectedCryptoChart` in
src/main.py (lines 134-166). -/
def selectedCryptoChartRequests1 (symbol token : String) : List (String × String) :=
  [ ("price", "?symbol=" ++ symbol ++ "&apikey=" ++ token)
  , ("time_series", "?symbol=" ++ symbol ++ "&interval=1month&outputsize=12&apikey=" ++ token)
  , ("time_series", "?symbol=" ++ symbol ++ "&interval=1day&outputsize=32&apikey=" ++ token) ]

/-- The `(endpoint, query-parameter)` pairs requested, in order, by the
second textual definition of `CryptoView.selectedCryptoChart` in
src/main.py (lines 211-253); its monthly `time_series` query carries no
`outputsize` parameter. -/
def selectedCryptoChartRequests2 (symbol token : String) : List (String × String) :=
  [ ("price", "?symbol=" ++ symbol ++ "&apikey=" ++ token)
  , ("time_series", "?symbol=" ++ symbol ++ "&interval=1month&apikey=" ++ token)
  , ("time_series", "?symbol=" ++ symbol ++ "&interval=1day&outputsize=32&apikey=" ++ token) ]

/-! ## View controller session state (`main`, `source_code_view`) -/

/-- The Streamlit session-state keys the view controller touches; `none`
embeds an absent key. -/
structure SessionState where
  current_view : Option String
  button_clicked : Option Bool
  selected_crypto : Option String
deriving DecidableEq, Repr

/-- A fresh Streamlit session: no keys set. -/
def initialSession : SessionState := ⟨none, none, none⟩

/-- Embeds the start of `CryptoView.main`: if `current_view` is not in the
session state, it is initialised to `"dashboard"`. -/
def mainInit (s : SessionState) : SessionState :=
  if s.current_view = none then { s with current_view := some "dashboard" } else s

/-- Embeds a click of the "Checkout Python Source Code" button in
`CryptoView.main`: sets `current_view` to `"source_code"`. -/
def viewSourceClick (s : SessionState) : SessionState :=
  { s with current_view := some "source_code" }

/-- Embeds `st.session_state.clear()`: every key is removed. -/
def sessionClear (_ : SessionState) : SessionState := ⟨none, none, none⟩

/-- Embeds a click of the "Tap Twice to Go Back to Dashboard" button in
`CryptoView.source_code_view`: sets `current_view` to `"dashboard"` and
then clears the whole session state. -/
def backClick (s : SessionState) : SessionState :=
  sessionClear { s with current_view := some "dashboard" }

/-- Embeds the `selected_crypto` initialisation in
`CryptoView.dashboard_view`: if the key is absent it is set to the
placeholder `"Select an option"`. -/
def dashboardSelectInit (s : SessionState) : SessionState :=
  if s.selected_crypto = none then { s with selected_crypto := some "Select an option" } else s

/-! ## Symbol option list (`dashboard_view`, lines 439-442) -/

/-- One record of the `/cryptocurrencies` listing response, restricted to
the fields the dashboard reads. -/
structure CryptoRec where
  currency_base : String
  symbol : String
deriving DecidableEq, Repr

/-- Embeds the dict comprehension
`{each_object['currency_base']: "" for each_object in data}` followed by
`list(...)`: Python dict insertion keeps the first occurrence's position
and drops later duplicates. -/
def dictBaseNames (data : List CryptoRec) : List String :=
  data.foldl (fun acc r => if r.currency_base ∈ acc then acc else acc ++ [r.currency_base]) []

/-- Embeds `unique_names` after `unique_names.insert(0, 'Select an
option')`: the deduplicated base-currency names with the leading
placeholder. -/
def unique_names (data : List CryptoRec) : List String :=
  "Select an option" :: dictBaseNames data

/-! ## Loading component (`loadingComponent` in src/main.py and src/app.py) -/

/-- Embeds the message loop `while counter < bound: caption(msg); counter
+= 1` with the caption placeholder threaded through; returns the final
counter and the placeholder content. -/
def loadingLoop (counter bound : Nat) (ph : Option String) (msg : String) : Nat × Option String :=
  if counter < bound then loadingLoop (counter + 1) bound (some msg) msg else (counter, ph)
termination_by bound - counter

/-- Embeds `CryptoView.loadingComponent` of src/main.py: the loop bound is
2 and the placeholder is emptied after the loop. Returns the number of
loop iterations executed and the final placeholder content. -/
def loadingComponentMain (msg : String) : Nat × Option String :=
  let r := loadingLoop 0 2 none msg
  (r.1, none)

/-- Embeds `CryptoView.loadingComponent` of src/app.py: identical except
that the loop bound is 1. -/
def loadingComponentApp (msg : String) : Nat × Option String :=
  let r := loadingLoop 0 1 none msg
  (r.1, none)

/-! ## Random selection (`randomColorSelection`, `dataset_arrays`) -/

/-- Embeds `random.randint(lo, hi)` with an oracle draw `d`: any `d` in
`[lo, hi]` is a possible result; an empty range (`hi < lo`) raises
`ValueError`. -/
def randint (lo hi d : Int) : Option Int :=
  if lo ≤ hi ∧ lo ≤ d ∧ d ≤ hi then some d else none

/-- Embeds `CryptoView.randomColorSelection`: draws
`random.randint(0, len(dataset) - 1)` and indexes the dataset with it. -/
def randomColorSelection (dataset : List String) (d : Int) : Option String :=
  (randint 0 ((dataset.length : Int) - 1) d).bind fun n => dataset.get? n.toNat

/-- The fixed colour list passed to `randomColorSelection` by
`CryptoView.dataset_arrays`. -/
def guiColors : List String := ["green", "orange", "red", "violet", "gray", "rainbow"]

/-- Embeds `api.motivational.motivational()`: the fixed list of
motivational strings. -/
def motivational : List String :=
  [ "Wealth is not just about having money; it’s about having time and freedom."
  , "The stock market is a wealth-building machine for those who invest consistently over time."
  , "True wealth is built by owning assets, not by working more hours."
  , "Investing is not about timing the market; it's about time in the market."
  , "Building wealth is a marathon, not a sprint. Stay patient and focused."
  , "In the stock market, patience is your greatest asset."
  , "Wealth comes from small, smart decisions made consistently over time."
  , "The best investment you can make is in stocks that grow your wealth over decades."
  , "Wealth is created by investing in great companies and holding for the long term."
  , "Invest in assets that appreciate over time; this is the path to building wealth."
  , "The stock market rewards those who are willing to wait, not those who try to get rich quickly."
  , "Wealth is the result of a disciplined approach to investing and spending."
  , "A diversified portfolio is the key to long-term wealth creation."
  , "You do not need to be a genius to invest well; you need patience and discipline."
  , "The market may fluctuate, but your commitment to wealth building should remain steady."
  , "Building wealth is about consistency, not luck. Invest regularly and let time work for you."
  , "The stock market is a tool for the wise to build wealth and for the impatient to lose it."
  , "Great investors focus on the long term. Wealth isn’t built overnight, but it is built over time."
  , "Investing in the stock market is the best way to put your money to work and build lasting wealth."
  , "Wealth is not just what you have; it’s what you do with what you have. Invest wisely" ]

/-- Embeds `CryptoView.dataset_arrays`: a random colour and a random
motivational text, with the two oracle draws made explicit. -/
def dataset_arrays (d1 d2 : Int) : Option String × Option String :=
  (randomColorSelection guiColors d1, randomColorSelection motivational d2)

/-! ## Auxiliary definitions used by the statements and proofs -/

/-- Failure predicate for one column conversion: the column is absent
(`KeyError`), or some cell of it fails to convert. -/
def columnFails (g : Cell → Option β) : Option (List Cell) → Prop
  | none => True
  | some cs => ∃ c ∈ cs, g c = none

/-- Index of the first occurrence of `a` (the list's length if absent);
used to state order stability of the deduplicated option list. -/
def firstIdx (a : String) : List String → Nat
  | [] => 0
  | b :: t => if b = a then 0 else firstIdx a t + 1

/-- Keep-first deduplication, the reference form of Python dict-key
insertion order used in the proofs about `dictBaseNames`. -/
def dedupFirst : List String → List String
  | [] => []
  | x :: xs => x :: dedupFirst (xs.filter (fun y => decide (y ≠ x)))
termination_by l => l.length
decreasing_by
  simp only [List.length_cons]
  exact Nat.lt_succ_of_le (List.length_filter_le _ _)

/-- A concrete monthly time-series frame whose close values, in datetime
order, are 10, 12, 9 (the example series of the specification); the rows
arrive unsorted, as API responses do. -/
def sampleSeriesFrame : Frame :=
  { datetime := some [Cell.str "2024-01-02", Cell.str "2024-01-01", Cell.str "2024-01-03"]
    open_ := some [Cell.str "1", Cell.str "1", Cell.str "1"]
    close := some [Cell.str "12", Cell.str "10", Cell.str "9"] }

/-- The frame `sampleSeriesFrame` becomes after the formatter's in-place
column conversions (original row order, parsed cells). -/
def sampleMutFrame : Frame :=
  { datetime := some [Cell.time 20240102, Cell.time 20240101, Cell.time 20240103]
    open_ := some [Cell.dec (Dec.mk 1 0), Cell.dec (Dec.mk 1 0), Cell.dec (Dec.mk 1 0)]
    close := some [Cell.dec (Dec.mk 12 0), Cell.dec (Dec.mk 10 0), Cell.dec (Dec.mk 9 0)] }

/-- The chart points the formatter computes for `sampleSeriesFrame`. -/
def sampleOut : List OutRow :=
  [ { datetime := 20240101, close := Dec.mk 10 0, change := none, marker := "red" }
  , { datetime := 20240102, close := Dec.mk 12 0, change := some (Dec.mk 2 0), marker := "green" }
  , { datetime := 20240103, close := Dec.mk 9 0, change := some (Dec.mk (-3) 0), marker := "red" } ]

/-- A frame whose fields are all present and whose numeric strings are
numeric, but whose datetime string does not parse. -/
def badDateFrame : Frame :=
  { datetime := some [Cell.str "garbage"]
    open_ := some [Cell.str "1"]
    close := some [Cell.str "2"] }

/-! ## Helper lemmas -/

lemma Dec.toRat_sub (a b : Dec) : (Dec.sub a b).toRat = a.toRat - b.toRat := by
  unfold Dec.sub Dec.toRat
  simp only
  push_cast
  rw [div_sub_div _ _ (by positivity) (by positivity)]
  rw [div_eq_div_iff (by positivity) (by positivity)]
  have e1 : (10 : ℚ) ^ (max a.scale b.scale - a.scale) * 10 ^ a.scale
      = 10 ^ (max a.scale b.scale) := by
    rw [← pow_add, Nat.sub_add_cancel (Nat.le_max_left _ _)]
  have e2 : (10 : ℚ) ^ (max a.scale b.scale - b.scale) * 10 ^ b.scale
      = 10 ^ (max a.scale b.scale) := by
    rw [← pow_add, Nat.sub_add_cancel (Nat.le_max_right _ _)]
  ring_nf
  ring_nf at e1 e2
  linear_combination (↑a.mant * (10 : ℚ) ^ b.scale) * e1 - (↑b.mant * (10 : ℚ) ^ a.scale) * e2

lemma Dec.isPos_iff (a : Dec) : a.isPos = true ↔ 0 < a.toRat := by
  unfold Dec.isPos Dec.toRat
  rw [decide_eq_true_iff]
  rw [div_pos_iff]
  constructor
  · intro h; left; exact ⟨by exact_mod_cast h, by positivity⟩
  · rintro (⟨h1, _⟩ | ⟨_, h2⟩)
    · exact_mod_cast h1
    · exfalso
      have : (0 : ℚ) < (((10 : ℕ) ^ a.scale : ℕ) : ℚ) := by positivity
      linarith

lemma Dec.sub_isPos_iff (a b : Dec) : (Dec.sub a b).isPos = true ↔ b.toRat < a.toRat := by
  rw [Dec.isPos_iff, Dec.toRat_sub, sub_pos]

lemma Dec.sub_not_isPos_iff (a b : Dec) : (Dec.sub a b).isPos = false ↔ a.toRat ≤ b.toRat := by
  rw [← Bool.not_eq_true, Dec.sub_isPos_iff, not_lt]

lemma parseCol_map_time (ts : List Nat) : parseCol cellToTime (ts.map Cell.time) = some ts := by
  induction ts with
  | nil => rfl
  | cons t ts ih => simp [parseCol, cellToTime, ih]

lemma parseCol_map_dec (qs : List Dec) : parseCol cellToDec (qs.map Cell.dec) = some qs := by
  induction qs with
  | nil => rfl
  | cons q qs ih => simp [parseCol, cellToDec, ih]

lemma parseCol_eq_none {g : Cell → Option β} {cs : List Cell} :
    parseCol g cs = none ↔ ∃ c ∈ cs, g c = none := by
  induction cs with
  | nil => simp [parseCol]
  | cons c cs ih =>
      cases hc : g c with
      | none => simp [parseCol, hc]
      | some b =>
          cases hcs : parseCol g cs with
          | none =>
              simp only [parseCol, hc, hcs]
              constructor
              · intro _
                obtain ⟨x, hx, hgx⟩ := ih.mp hcs
                exact ⟨x, List.mem_cons_of_mem _ hx, hgx⟩
              · intro _; trivial
          | some bs =>
              simp only [parseCol, hc, hcs]
              constructor
              · intro h; exact absurd h (by simp)
              · rintro ⟨x, hx, hgx⟩
                rcases List.mem_cons.mp hx with rfl | hx
                · exact absurd hc (by simp [hgx])
                · have := ih.mpr ⟨x, hx, hgx⟩
                  simp [this] at hcs

lemma cryptoLineGraphCreation_some {f : Frame} {f' : Frame} {out : List OutRow}
    (h : cryptoLineGraphCreation f = some (f', out)) :
    ∃ ts ops cls,
      f.datetime.bind (parseCol cellToTime) = some ts ∧
      f.open_.bind (parseCol cellToDec) = some ops ∧
      f.close.bind (parseCol cellToDec) = some cls ∧
      f' = writeBack ts ops cls ∧ out = buildOut ts cls := by
  unfold cryptoLineGraphCreation at h
  rcases Option.bind_eq_some.mp h with ⟨ts, hts, h⟩
  rcases Option.bind_eq_some.mp h with ⟨ops, hops, h⟩
  rcases Option.bind_eq_some.mp h with ⟨cls, hcls, h⟩
  refine ⟨ts, ops, cls, hts, hops, hcls, ?_, ?_⟩
  · exact (Prod.mk.injEq _ _ _ _ ▸ (Option.some.injEq _ _ ▸ h)).1.symm
  · exact (Prod.mk.injEq _ _ _ _ ▸ (Option.some.injEq _ _ ▸ h)).2.symm

lemma seriesDiff_length (l : List Dec) : (seriesDiff l).length = l.length := by
  cases l with
  | nil => rfl
  | cons a t => simp [seriesDiff, shiftOne]

lemma seriesDiff_get_zero (l : List Dec) (h : 0 < (seriesDiff l).length) :
    (seriesDiff l).get ⟨0, h⟩ = none := by
  cases l with
  | nil => simp [seriesDiff_length] at h
  | cons a t => rfl

lemma seriesDiff_get_succ (l : List Dec) (i : Nat) (h1 : i + 1 < (seriesDiff l).length)
    (h2 : i + 1 < l.length) (h3 : i < l.length) :
    (seriesDiff l).get ⟨i + 1, h1⟩ = some (Dec.sub (l.get ⟨i + 1, h2⟩) (l.get ⟨i, h3⟩)) := by
  simp only [List.get_eq_getElem, seriesDiff, shiftOne]
  rw [List.getElem_zipWith]
  simp only [List.getElem_cons_succ]
  rw [List.getElem_map]
  rw [List.getElem_dropLast]

lemma buildOut_length (ts : List Nat) (cls : List Dec) :
    (buildOut ts cls).length = (List.insertionSort rowLe (List.zipWith Row.mk ts cls)).length := by
  unfold buildOut
  rw [List.length_zipWith, seriesDiff_length, List.length_map, Nat.min_self]

lemma buildOut_get (ts : List Nat) (cls : List Dec) (i : Nat) (h : i < (buildOut ts cls).length)
    (hS : i < (List.insertionSort rowLe (List.zipWith Row.mk ts cls)).length)
    (hd : i < (seriesDiff ((List.insertionSort rowLe (List.zipWith Row.mk ts cls)).map Row.close)).length) :
    (buildOut ts cls).get ⟨i, h⟩ =
      OutRow.mk ((List.insertionSort rowLe (List.zipWith Row.mk ts cls)).get ⟨i, hS⟩).datetime
        ((List.insertionSort rowLe (List.zipWith Row.mk ts cls)).get ⟨i, hS⟩).close
        ((seriesDiff ((List.insertionSort rowLe (List.zipWith Row.mk ts cls)).map Row.close)).get ⟨i, hd⟩)
        (markerColor ((seriesDiff ((List.insertionSort rowLe (List.zipWith Row.mk ts cls)).map Row.close)).get ⟨i, hd⟩)) := by
  simp only [buildOut, List.get_eq_getElem, List.getElem_zipWith]

lemma zipWith_const_left {α β γ : Type} (g : α → γ) :
    ∀ (l1 : List α) (l2 : List β), l2.length = l1.length →
      List.zipWith (fun a _ => g a) l1 l2 = l1.map g
  | [], [], _ => rfl
  | [], _ :: _, h => by simp at h
  | _ :: _, [], h => by simp at h
  | a :: l1, b :: l2, h => by
      simp only [List.zipWith_cons_cons, List.map_cons, List.cons.injEq, true_and]
      exact zipWith_const_left g l1 l2 (by simpa using h)

lemma buildOut_map_datetime (ts : List Nat) (cls : List Dec) :
    (buildOut ts cls).map OutRow.datetime =
      (List.insertionSort rowLe (List.zipWith Row.mk ts cls)).map Row.datetime := by
  unfold buildOut
  rw [List.map_zipWith]
  exact zipWith_const_left Row.datetime _ _ (by rw [seriesDiff_length, List.length_map])

lemma bindColumn_eq_none (oc : Option (List Cell)) (g : Cell → Option β) :
    oc.bind (parseCol g) = none ↔ columnFails g oc := by
  cases oc with
  | none => simp [columnFails]
  | some cs => simp [columnFails, parseCol_eq_none]

lemma dedupFirst_nil : dedupFirst [] = [] := by rw [dedupFirst]

lemma dedupFirst_cons (x : String) (xs : List String) :
    dedupFirst (x :: xs) = x :: dedupFirst (xs.filter (fun y => decide (y ≠ x))) := by
  rw [dedupFirst]

lemma filter_len_lt (x : String) (xs : List String) (n : Nat) (h : xs.length ≤ n) :
    (xs.filter (fun y => decide (y ≠ x))).length ≤ n :=
  Nat.le_trans (List.length_filter_le _ _) h

lemma mem_dedupFirst (l : List String) (a : String) : a ∈ dedupFirst l ↔ a ∈ l := by
  suffices h : ∀ n (l : List String), l.length ≤ n → ∀ a, (a ∈ dedupFirst l ↔ a ∈ l) by
    exact h l.length l (Nat.le_refl _) a
  intro n
  induction n with
  | zero =>
      intro l hl a
      have : l = [] := List.length_eq_zero.mp (Nat.le_zero.mp hl)
      subst this
      simp [dedupFirst_nil]
  | succ n ih =>
      intro l hl a
      cases l with
      | nil => simp [dedupFirst_nil]
      | cons x xs =>
          rw [dedupFirst_cons]
          by_cases hax : a = x
          · subst hax; simp
          · simp only [List.mem_cons, hax, false_or]
            rw [ih _ (filter_len_lt x xs n (by simpa using hl)) a]
            simp [List.mem_filter, hax]

lemma nodup_dedupFirst (l : List String) : (dedupFirst l).Nodup := by
  suffices h : ∀ n (l : List String), l.length ≤ n → (dedupFirst l).Nodup by
    exact h l.length l (Nat.le_refl _)
  intro n
  induction n with
  | zero =>
      intro l hl
      have : l = [] := List.length_eq_zero.mp (Nat.le_zero.mp hl)
      subst this
      simp [dedupFirst_nil]
  | succ n ih =>
      intro l hl
      cases l with
      | nil => simp [dedupFirst_nil]
      | cons x xs =>
          rw [dedupFirst_cons]
          refine List.nodup_cons.mpr ⟨?_, ih _ (filter_len_lt x xs n (by simpa using hl))⟩
          intro hx
          have := (mem_dedupFirst _ _).mp hx
          simp [List.mem_filter] at this

lemma sublist_dedupFirst (l : List String) : (dedupFirst l).Sublist l := by
  suffices h : ∀ n (l : List String), l.length ≤ n → (dedupFirst l).Sublist l by
    exact h l.length l (Nat.le_refl _)
  intro n
  induction n with
  | zero =>
      intro l hl
      have : l = [] := List.length_eq_zero.mp (Nat.le_zero.mp hl)
      subst this
      simp [dedupFirst_nil]
  | succ n ih =>
      intro l hl
      cases l with
      | nil => simp [dedupFirst_nil]
      | cons x xs =>
          rw [dedupFirst_cons]
          exact List.Sublist.cons₂ x
            ((ih _ (filter_len_lt x xs n (by simpa using hl))).trans (List.filter_sublist _))

lemma firstIdx_cons (a b : String) (t : List String) :
    firstIdx a (b :: t) = if b = a then 0 else firstIdx a t + 1 := rfl

lemma firstIdx_filter (p : String → Bool) :
    ∀ (l : List String) (x y : String), p x = true → p y = true →
      (firstIdx x l < firstIdx y l ↔ firstIdx x (l.filter p) < firstIdx y (l.filter p)) := by
  intro l
  induction l with
  | nil => intro x y _ _; simp
  | cons h t ih =>
      intro x y hx hy
      cases hph : p h with
      | false =>
          have hhx : ¬h = x := fun e => by rw [e, hx] at hph; cases hph
          have hhy : ¬h = y := fun e => by rw [e, hy] at hph; cases hph
          rw [List.filter_cons_of_neg (by simp [hph])]
          simp only [firstIdx_cons, if_neg hhx, if_neg hhy, Nat.add_lt_add_iff_right]
          exact ih x y hx hy
      | true =>
          rw [List.filter_cons_of_pos (by simp [hph])]
          by_cases hhx : h = x
          · by_cases hhy : h = y
            · simp only [firstIdx_cons, if_pos hhx, if_pos hhy]
            · simp only [firstIdx_cons, if_pos hhx, if_neg hhy]
              omega
          · by_cases hhy : h = y
            · simp only [firstIdx_cons, if_neg hhx, if_pos hhy]
              omega
            · simp only [firstIdx_cons, if_neg hhx, if_neg hhy, Nat.add_lt_add_iff_right]
              exact ih x y hx hy

lemma firstIdx_dedupFirst (l : List String) (x y : String) :
    firstIdx x l < firstIdx y l ↔ firstIdx x (dedupFirst l) < firstIdx y (dedupFirst l) := by
  suffices h : ∀ n (l : List String), l.length ≤ n → ∀ x y,
      (firstIdx x l < firstIdx y l ↔ firstIdx x (dedupFirst l) < firstIdx y (dedupFirst l)) by
    exact h l.length l (Nat.le_refl _) x y
  intro n
  induction n with
  | zero =>
      intro l hl x y
      have : l = [] := List.length_eq_zero.mp (Nat.le_zero.mp hl)
      subst this
      simp [dedupFirst_nil]
  | succ n ih =>
      intro l hl x y
      cases l with
      | nil => simp [dedupFirst_nil]
      | cons a t =>
          rw [dedupFirst_cons]
          by_cases hax : a = x
          · by_cases hay : a = y
            · simp only [firstIdx_cons, if_pos hax, if_pos hay]
            · simp only [firstIdx_cons, if_pos hax, if_neg hay]
              omega
          · by_cases hay : a = y
            · simp only [firstIdx_cons, if_neg hax, if_pos hay]
              omega
            · simp only [firstIdx_cons, if_neg hax, if_neg hay, Nat.add_lt_add_iff_right]
              have hpx : (fun z => decide (z ≠ a)) x = true := by
                simp only [decide_eq_true_iff]
                exact fun e => hax e.symm
              have hpy : (fun z => decide (z ≠ a)) y = true := by
                simp only [decide_eq_true_iff]
                exact fun e => hay e.symm
              rw [firstIdx_filter (fun z => decide (z ≠ a)) t x y hpx hpy]
              exact ih _ (filter_len_lt a t n (by simpa using hl)) x y

lemma foldl_dedup :
    ∀ (l acc : List String),
      l.foldl (fun acc x => if x ∈ acc then acc else acc ++ [x]) acc
        = acc ++ dedupFirst (l.filter (fun x => decide (x ∉ acc))) := by
  intro l
  induction l with
  | nil => intro acc; simp [dedupFirst_nil]
  | cons x t ih =>
      intro acc
      by_cases hx : x ∈ acc
      · rw [List.foldl_cons]
        simp only [if_pos hx]
        rw [ih acc]
        rw [List.filter_cons_of_neg (by simp [hx])]
      · rw [List.foldl_cons]
        simp only [if_neg hx]
        rw [ih (acc ++ [x])]
        rw [List.filter_cons_of_pos (by simp [hx])]
        rw [dedupFirst_cons]
        rw [List.append_cons acc x (dedupFirst _)]
        congr 1
        rw [List.filter_filter]
        apply congrArg
        apply List.filter_congr
        intro y _
        by_cases h1 : y ∈ acc <;> by_cases h2 : y = x <;> simp [h1, h2]

lemma foldl_map_cb :
    ∀ (data : List CryptoRec) (acc : List String),
      data.foldl (fun acc r => if r.currency_base ∈ acc then acc else acc ++ [r.currency_base]) acc
        = (data.map CryptoRec.currency_base).foldl
            (fun acc x => if x ∈ acc then acc else acc ++ [x]) acc := by
  intro data
  induction data with
  | nil => intro acc; rfl
  | cons r t ih => intro acc; rw [List.map_cons, List.foldl_cons, List.foldl_cons]; exact ih _

lemma dictBaseNames_eq (data : List CryptoRec) :
    dictBaseNames data = dedupFirst (data.map CryptoRec.currency_base) := by
  unfold dictBaseNames
  rw [foldl_map_cb, foldl_dedup]
  simp

lemma loadingLoop_run :
    ∀ (n c b : Nat) (ph : Option String) (m : String), b - c ≤ n →
      loadingLoop c b ph m = (max c b, if c < b then some m else ph) := by
  intro n
  induction n with
  | zero =>
      intro c b ph m h
      have hcb : ¬c < b := by omega
      rw [loadingLoop]
      simp [hcb]
      omega
  | succ n ih =>
      intro c b ph m h
      by_cases hcb : c < b
      · rw [loadingLoop]
        simp only [if_pos hcb]
        rw [ih (c + 1) b (some m) m (by omega)]
        have h1 : max (c + 1) b = max c b := by omega
        have h2 : (if c + 1 < b then some m else some m) = some m := by
          split <;> rfl
        rw [h1, h2]
      · rw [loadingLoop]
        simp [hcb]
        omega

end CryptoSpec

namespace CryptoSpec

/-- Claim C1: after sorting by datetime, the formatter's derived change
field satisfies `change[i] = close[i] - close[i-1]` exactly for all
`i > 0`, in exact decimal (rational-valued) arithmetic, and the change of
the first point of the series is undefined (`none`). -/
theorem change_is_exact_decimal_diff :
    ∀ (f f' : Frame) (out : List OutRow), cryptoLineGraphCreation f = some (f', out) →
      (∀ i : Nat, ∀ h1 : i + 1 < out.length,
        (out.get ⟨i + 1, h1⟩).change =
            some (Dec.sub (out.get ⟨i + 1, h1⟩).close (out.get ⟨i, Nat.lt_of_succ_lt h1⟩).close)
        ∧ ((out.get ⟨i + 1, h1⟩).change).map Dec.toRat =
            some ((out.get ⟨i + 1, h1⟩).close.toRat - (out.get ⟨i, Nat.lt_of_succ_lt h1⟩).close.toRat))
      ∧ (∀ h0 : 0 < out.length, (out.get ⟨0, h0⟩).change = none) := by
  intro f f' out h
  obtain ⟨ts, ops, cls, _, _, _, _, rfl⟩ := cryptoLineGraphCreation_some h
  have hlen := buildOut_length ts cls
  have hdlen : (seriesDiff ((List.insertionSort rowLe (List.zipWith Row.mk ts cls)).map Row.close)).length
      = (List.insertionSort rowLe (List.zipWith Row.mk ts cls)).length := by
    rw [seriesDiff_length, List.length_map]
  constructor
  · intro i h1
    have hS1 : i + 1 < (List.insertionSort rowLe (List.zipWith Row.mk ts cls)).length := by omega
    have hS0 : i < (List.insertionSort rowLe (List.zipWith Row.mk ts cls)).length := by omega
    have hd1 : i + 1 < (seriesDiff ((List.insertionSort rowLe (List.zipWith Row.mk ts cls)).map Row.close)).length := by omega
    have hd0 : i < (seriesDiff ((List.insertionSort rowLe (List.zipWith Row.mk ts cls)).map Row.close)).length := by omega
    have hm1 : i + 1 < ((List.insertionSort rowLe (List.zipWith Row.mk ts cls)).map Row.close).length := by
      rw [List.length_map]; omega
    have hm0 : i < ((List.insertionSort rowLe (List.zipWith Row.mk ts cls)).map Row.close).length := by
      rw [List.length_map]; omega
    rw [buildOut_get ts cls (i + 1) h1 hS1 hd1,
        buildOut_get ts cls i (Nat.lt_of_succ_lt h1) hS0 hd0]
    simp only
    rw [seriesDiff_get_succ _ i hd1 hm1 hm0]
    have hc1 : ((List.insertionSort rowLe (List.zipWith Row.mk ts cls)).map Row.close).get ⟨i + 1, hm1⟩
        = ((List.insertionSort rowLe (List.zipWith Row.mk ts cls)).get ⟨i + 1, hS1⟩).close := by
      simp [List.get_eq_getElem, List.getElem_map]
    have hc0 : ((List.insertionSort rowLe (List.zipWith Row.mk ts cls)).map Row.close).get ⟨i, hm0⟩
        = ((List.insertionSort rowLe (List.zipWith Row.mk ts cls)).get ⟨i, hS0⟩).close := by
      simp [List.get_eq_getElem, List.getElem_map]
    rw [hc1, hc0]
    exact ⟨rfl, by simp [Dec.toRat_sub]⟩
  · intro h0
    have hS0 : 0 < (List.insertionSort rowLe (List.zipWith Row.mk ts cls)).length := by omega
    have hd0 : 0 < (seriesDiff ((List.insertionSort rowLe (List.zipWith Row.mk ts cls)).map Row.close)).length := by omega
    rw [buildOut_get ts cls 0 h0 hS0 hd0]
    simp only
    exact seriesDiff_get_zero _ hd0

/-- Witness for C1 at the concrete frame `sampleSeriesFrame`. -/
theorem change_is_exact_decimal_diff_witness :
    (sampleOut.get ⟨1, by decide⟩).change
        = some (Dec.sub (sampleOut.get ⟨1, by decide⟩).close (sampleOut.get ⟨0, by decide⟩).close)
    ∧ (sampleOut.get ⟨0, by decide⟩).change = none := by
  have h : cryptoLineGraphCreation sampleSeriesFrame = some (sampleMutFrame, sampleOut) := by decide
  have hm := change_is_exact_decimal_diff sampleSeriesFrame sampleMutFrame sampleOut h
  exact ⟨(hm.1 0 (by decide)).1, hm.2 (by decide)⟩

lemma Dec.sub_isPos_ne_iff (a b : Dec) :
    ¬(Dec.sub a b).isPos = true ↔ a.toRat ≤ b.toRat := by
  rw [Bool.not_eq_true, Dec.sub_not_isPos_iff]

/-- Claim C2 counterexample: for close values 10, 12, 9 (in datetime
order) the formatter's direction/marker sequence is
`["red", "green", "red"]`, i.e. `[down, up, down]`: the first point
receives `"red"`, the same marker as a down move (`NaN > 0` is false in
Python), not a distinct n/a value as the claim states. -/
theorem direction_first_point_counterexample :
    (cryptoLineGraphCreation sampleSeriesFrame).map (fun p => p.2.map OutRow.marker)
        = some ["red", "green", "red"]
    ∧ markerColor none = "red"
    ∧ markerColor (some (Dec.mk (-1) 0)) = "red" := by decide

/-- Claim C2 (amended): for `i > 0` the marker is `"green"` exactly when
the close strictly increased and `"red"` exactly when it decreased or
stayed equal, and the first point's marker is `"red"` (not a distinct
n/a); for close values 10, 12, 9 the produced sequence is
`[red, green, red]`, i.e. `[down, up, down]`. -/
theorem direction_up_iff_close_increased :
    (∀ (f f' : Frame) (out : List OutRow), cryptoLineGraphCreation f = some (f', out) →
      (∀ i : Nat, ∀ h1 : i + 1 < out.length,
          ((out.get ⟨i + 1, h1⟩).marker = "green"
            ↔ (out.get ⟨i, Nat.lt_of_succ_lt h1⟩).close.toRat < (out.get ⟨i + 1, h1⟩).close.toRat)
        ∧ ((out.get ⟨i + 1, h1⟩).marker = "red"
            ↔ (out.get ⟨i + 1, h1⟩).close.toRat ≤ (out.get ⟨i, Nat.lt_of_succ_lt h1⟩).close.toRat))
      ∧ (∀ h0 : 0 < out.length, (out.get ⟨0, h0⟩).marker = "red"))
    ∧ (cryptoLineGraphCreation sampleSeriesFrame).map (fun p => p.2.map OutRow.marker)
        = some ["red", "green", "red"] := by
  constructor
  · intro f f' out h
    obtain ⟨ts, ops, cls, _, _, _, _, rfl⟩ := cryptoLineGraphCreation_some h
    have hlen := buildOut_length ts cls
    have hdlen : (seriesDiff ((List.insertionSort rowLe (List.zipWith Row.mk ts cls)).map Row.close)).length
        = (List.insertionSort rowLe (List.zipWith Row.mk ts cls)).length := by
      rw [seriesDiff_length, List.length_map]
    constructor
    · intro i h1
      have hS1 : i + 1 < (List.insertionSort rowLe (List.zipWith Row.mk ts cls)).length := by omega
      have hS0 : i < (List.insertionSort rowLe (List.zipWith Row.mk ts cls)).length := by omega
      have hd1 : i + 1 < (seriesDiff ((List.insertionSort rowLe (List.zipWith Row.mk ts cls)).map Row.close)).length := by omega
      have hd0 : i < (seriesDiff ((List.insertionSort rowLe (List.zipWith Row.mk ts cls)).map Row.close)).length := by omega
      have hm1 : i + 1 < ((List.insertionSort rowLe (List.zipWith Row.mk ts cls)).map Row.close).length := by
        rw [List.length_map]; omega
      have hm0 : i < ((List.insertionSort rowLe (List.zipWith Row.mk ts cls)).map Row.close).length := by
        rw [List.length_map]; omega
      rw [buildOut_get ts cls (i + 1) h1 hS1 hd1,
          buildOut_get ts cls i (Nat.lt_of_succ_lt h1) hS0 hd0]
      simp only
      rw [seriesDiff_get_succ _ i hd1 hm1 hm0]
      have hc1 : ((List.insertionSort rowLe (List.zipWith Row.mk ts cls)).map Row.close).get ⟨i + 1, hm1⟩
          = ((List.insertionSort rowLe (List.zipWith Row.mk ts cls)).get ⟨i + 1, hS1⟩).close := by
        simp [List.get_eq_getElem, List.getElem_map]
      have hc0 : ((List.insertionSort rowLe (List.zipWith Row.mk ts cls)).map Row.close).get ⟨i, hm0⟩
          = ((List.insertionSort rowLe (List.zipWith Row.mk ts cls)).get ⟨i, hS0⟩).close := by
        simp [List.get_eq_getElem, List.getElem_map]
      rw [hc1, hc0]
      simp only [markerColor]
      split
      case isTrue hp =>
        have hlt := (Dec.sub_isPos_iff _ _).mp hp
        simp only [List.get_eq_getElem] at hlt ⊢
        exact ⟨iff_of_true (by trivial) hlt, iff_of_false (by simp) (not_le.mpr hlt)⟩
      case isFalse hp =>
        have hle := (Dec.sub_isPos_ne_iff _ _).mp hp
        simp only [List.get_eq_getElem] at hle ⊢
        exact ⟨iff_of_false (by simp) (not_lt.mpr hle), iff_of_true (by trivial) hle⟩
    · intro h0
      have hS0 : 0 < (List.insertionSort rowLe (List.zipWith Row.mk ts cls)).length := by omega
      have hd0 : 0 < (seriesDiff ((List.insertionSort rowLe (List.zipWith Row.mk ts cls)).map Row.close)).length := by omega
      rw [buildOut_get ts cls 0 h0 hS0 hd0]
      simp only
      rw [seriesDiff_get_zero _ hd0]
      rfl
  · decide

/-- Witness for C2 (amended) at the concrete frame `sampleSeriesFrame`. -/
theorem direction_up_iff_close_increased_witness :
    (sampleOut.get ⟨1, by decide⟩).marker = "green"
      ↔ (sampleOut.get ⟨0, by decide⟩).close.toRat < (sampleOut.get ⟨1, by decide⟩).close.toRat := by
  exact ((direction_up_iff_close_increased.1 sampleSeriesFrame sampleMutFrame sampleOut
    (by decide)).1 0 (by decide)).1

/-- Claim C3: the formatter's output sequence is sorted non-decreasing by
its datetime field. -/
theorem output_sorted_by_datetime :
    ∀ (f f' : Frame) (out : List OutRow), cryptoLineGraphCreation f = some (f', out) →
      List.Sorted (fun a b : Nat => a ≤ b) (out.map OutRow.datetime) := by
  intro f f' out h
  obtain ⟨ts, ops, cls, _, _, _, _, rfl⟩ := cryptoLineGraphCreation_some h
  rw [buildOut_map_datetime]
  exact List.Pairwise.map _ (fun a b hab => hab) (List.sorted_insertionSort rowLe _)

/-- Witness for C3 at the concrete frame `sampleSeriesFrame`. -/
theorem output_sorted_by_datetime_witness :
    List.Sorted (fun a b : Nat => a ≤ b) (sampleOut.map OutRow.datetime) :=
  output_sorted_by_datetime sampleSeriesFrame sampleMutFrame sampleOut (by decide)

/-- Claim C4: the view state starts as dashboard; "view source" moves to
source_code; "back" returns to dashboard (after the rerun's
initialisation) with the selected symbol cleared, and the next dashboard
render resets the selection to the placeholder option. -/
theorem view_state_machine :
    (mainInit initialSession).current_view = some "dashboard"
    ∧ (∀ s : SessionState, (viewSourceClick s).current_view = some "source_code")
    ∧ (∀ s : SessionState,
        (mainInit (backClick s)).current_view = some "dashboard"
        ∧ (backClick s).selected_crypto = none
        ∧ (mainInit (backClick s)).selected_crypto = none
        ∧ (dashboardSelectInit (mainInit (backClick s))).selected_crypto
            = some "Select an option") := by
  refine ⟨rfl, fun s => rfl, fun s => ⟨rfl, rfl, rfl, rfl⟩⟩

end CryptoSpec

namespace CryptoSpec

/-- Claim C5: the option list built from a symbol-list response is
deduplicated on currency_base, order-stable (retained names keep the
relative order of their first occurrences), and begins with the
placeholder entry. -/
theorem option_list_dedup_stable :
    ∀ data : List CryptoRec,
      (unique_names data).head? = some "Select an option"
      ∧ (dictBaseNames data).Nodup
      ∧ (∀ x, x ∈ dictBaseNames data ↔ x ∈ data.map CryptoRec.currency_base)
      ∧ (dictBaseNames data).Sublist (data.map CryptoRec.currency_base)
      ∧ (∀ x y, firstIdx x (data.map CryptoRec.currency_base)
            < firstIdx y (data.map CryptoRec.currency_base)
          ↔ firstIdx x (dictBaseNames data) < firstIdx y (dictBaseNames data)) := by
  intro data
  refine ⟨rfl, ?_, ?_, ?_, ?_⟩
  · rw [dictBaseNames_eq]; exact nodup_dedupFirst _
  · intro x; rw [dictBaseNames_eq]; exact mem_dedupFirst _ _
  · rw [dictBaseNames_eq]; exact sublist_dedupFirst _
  · intro x y; rw [dictBaseNames_eq]; exact firstIdx_dedupFirst _ x y

/-- Claim C6: re-running the formatter on the frame it mutated yields the
identical mutated frame and identical output (the formatter is
deterministic and its in-place conversions are idempotent). -/
theorem formatter_rerun_identical :
    ∀ (f f' : Frame) (out : List OutRow), cryptoLineGraphCreation f = some (f', out) →
      cryptoLineGraphCreation f' = some (f', out) := by
  intro f f' out h
  obtain ⟨ts, ops, cls, _, _, _, rfl, rfl⟩ := cryptoLineGraphCreation_some h
  simp [cryptoLineGraphCreation, writeBack, parseCol_map_time, parseCol_map_dec]

/-- Witness for C6 at the concrete frame `sampleSeriesFrame`. -/
theorem formatter_rerun_identical_witness :
    cryptoLineGraphCreation sampleMutFrame = some (sampleMutFrame, sampleOut) :=
  formatter_rerun_identical sampleSeriesFrame sampleMutFrame sampleOut (by decide)

/-- Claim C7 counterexample: at a concrete record and token the two
textual definitions of `selectedCryptoChart` do not issue the same query
strings: the first requests the monthly series with `outputsize=12`, the
second without it. -/
theorem duplicate_requests_differ :
    selectedCryptoChartRequests1 "BTC/USD" "demo" ≠ selectedCryptoChartRequests2 "BTC/USD" "demo" := by
  decide

/-- Claim C7 (amended): the two `selectedCryptoChart` definitions call the
same endpoints in the same order with identical price and daily query
strings, but their monthly query strings always differ (`outputsize=12`
present vs absent); and whenever the operative (second)
`cryptoLineGraphCreation` succeeds, the first definition computes the same
chart output. -/
theorem duplicate_defs_relationship :
    (∀ s t : String,
        (selectedCryptoChartRequests1 s t).map Prod.fst
          = (selectedCryptoChartRequests2 s t).map Prod.fst)
    ∧ (∀ s t : String,
        (selectedCryptoChartRequests1 s t).get? 0 = (selectedCryptoChartRequests2 s t).get? 0
        ∧ (selectedCryptoChartRequests1 s t).get? 2 = (selectedCryptoChartRequests2 s t).get? 2)
    ∧ (∀ s t : String,
        (selectedCryptoChartRequests1 s t).get? 1 ≠ (selectedCryptoChartRequests2 s t).get? 1)
    ∧ (∀ (f g : Frame) (out : List OutRow), cryptoLineGraphCreation f = some (g, out) →
        ∃ g2, cryptoLineGraphCreationV1 f = some (g2, out)) := by
  refine ⟨fun s t => rfl, fun s t => ⟨rfl, rfl⟩, ?_, ?_⟩
  · intro s t h
    simp only [selectedCryptoChartRequests1, selectedCryptoChartRequests2] at h
    have h2 : "?symbol=" ++ s ++ "&interval=1month&outputsize=12&apikey=" ++ t
        = "?symbol=" ++ s ++ "&interval=1month&apikey=" ++ t := by
      have := congrArg (fun o => Option.map Prod.snd o) h
      simpa using this
    have hlen := congrArg String.length h2
    simp only [String.length_append] at hlen
    have hne : ("&interval=1month&outputsize=12&apikey=" : String).length
        ≠ ("&interval=1month&apikey=" : String).length := by decide
    omega
  · intro f g out h
    obtain ⟨ts, ops, cls, hts, hops, hcls, hg, hout⟩ := cryptoLineGraphCreation_some h
    unfold cryptoLineGraphCreationV1
    rw [hts, hcls, hout]
    exact ⟨_, rfl⟩

/-- Witness for C7 (amended) at the concrete frame `sampleSeriesFrame`. -/
theorem duplicate_defs_relationship_witness :
    ∃ g2, cryptoLineGraphCreationV1 sampleSeriesFrame = some (g2, sampleOut) :=
  duplicate_defs_relationship.2.2.2 sampleSeriesFrame sampleMutFrame sampleOut (by decide)

/-- Claim C8 counterexample: a frame with every required field present and
every numeric string numeric still makes the formatter fail, because its
datetime string does not parse; so the claimed "exactly when" failure
condition is too narrow. -/
theorem formatter_fails_on_bad_datetime :
    cryptoLineGraphCreation badDateFrame = none
    ∧ badDateFrame.datetime ≠ none
    ∧ badDateFrame.open_ ≠ none
    ∧ badDateFrame.close ≠ none
    ∧ parseDec "1" ≠ none
    ∧ parseDec "2" ≠ none := by decide

/-- Claim C8 (amended): the formatter fails exactly when a required column
(datetime, open or close) is absent or some cell of it fails to convert —
a non-numeric string in `open`/`close`, or an unparseable datetime
string; with all columns present and every cell convertible it does not
fail. -/
theorem formatter_failure_characterisation :
    ∀ f : Frame, cryptoLineGraphCreation f = none
      ↔ (columnFails cellToTime f.datetime
          ∨ columnFails cellToDec f.open_
          ∨ columnFails cellToDec f.close) := by
  intro f
  cases hA : f.datetime.bind (parseCol cellToTime) with
  | none =>
      simp only [cryptoLineGraphCreation, hA, Option.none_bind]
      exact iff_of_true (by trivial) (Or.inl ((bindColumn_eq_none _ _).mp hA))
  | some ts =>
      cases hB : f.open_.bind (parseCol cellToDec) with
      | none =>
          simp only [cryptoLineGraphCreation, hA, hB, Option.some_bind, Option.none_bind]
          exact iff_of_true (by trivial) (Or.inr (Or.inl ((bindColumn_eq_none _ _).mp hB)))
      | some ops =>
          cases hC : f.close.bind (parseCol cellToDec) with
          | none =>
              simp only [cryptoLineGraphCreation, hA, hB, hC, Option.some_bind, Option.none_bind]
              exact iff_of_true (by trivial) (Or.inr (Or.inr ((bindColumn_eq_none _ _).mp hC)))
          | some cls =>
              simp only [cryptoLineGraphCreation, hA, hB, hC, Option.some_bind]
              apply iff_of_false (by simp)
              rintro (hf | hf | hf)
              · rw [← bindColumn_eq_none _ _] at hf; simp [hf] at hA
              · rw [← bindColumn_eq_none _ _] at hf; simp [hf] at hB
              · rw [← bindColumn_eq_none _ _] at hf; simp [hf] at hC

/-- Claim C9 counterexample: the `loadingComponent` of src/app.py executes
exactly one loop iteration, not two. -/
theorem loading_app_single_iteration :
    loadingComponentApp "Wait for it..." = (1, none)
    ∧ (loadingComponentApp "Wait for it...").1 ≠ 2 := by
  have h : loadingLoop 0 1 none "Wait for it..." = (max 0 1, some "Wait for it...") := by
    rw [loadingLoop_run 1 0 1 none "Wait for it..." (by omega)]
    simp
  constructor
  · unfold loadingComponentApp
    rw [h]
    simp
  · unfold loadingComponentApp
    rw [h]
    simp

/-- Claim C9 (amended): both loading components terminate, the message
loop runs exactly `bound - counter` iterations (the counter climbs from
its start to the bound), the bound is 2 in src/main.py and 1 in
src/app.py, and the placeholder is cleared at the end. -/
theorem loading_component_iterations :
    (∀ msg, loadingComponentMain msg = (2, none))
    ∧ (∀ msg, loadingComponentApp msg = (1, none))
    ∧ (∀ (c b : Nat) (ph : Option String) (m : String), (loadingLoop c b ph m).1 = max c b) := by
  refine ⟨?_, ?_, ?_⟩
  · intro msg
    unfold loadingComponentMain
    rw [loadingLoop_run (2) 0 2 none msg (by omega)]
    simp
  · intro msg
    unfold loadingComponentApp
    rw [loadingLoop_run (1) 0 1 none msg (by omega)]
    simp
  · intro c b ph m
    rw [loadingLoop_run (b - c) c b ph m (Nat.le_refl _)]

/-- Claim C10: `randomColorSelection` only ever returns elements of its
dataset, succeeds on every non-empty dataset for every in-range draw, and
fails on the empty list (`randint(0, -1)` raises); hence `dataset_arrays`
always returns a colour from the fixed six-name list and a message from
the fixed 20-element motivational list. -/
theorem random_selection_in_bounds :
    (∀ (dataset : List String) (d : Int) (x : String),
        randomColorSelection dataset d = some x → x ∈ dataset)
    ∧ (∀ (dataset : List String) (d : Int), dataset ≠ [] → 0 ≤ d →
        d ≤ (dataset.length : Int) - 1 → (randomColorSelection dataset d).isSome = true)
    ∧ (∀ d : Int, randomColorSelection [] d = none)
    ∧ (∀ (d1 d2 : Int) (c m : String), dataset_arrays d1 d2 = (some c, some m) →
        c ∈ guiColors ∧ m ∈ motivational)
    ∧ guiColors.length = 6 ∧ motivational.length = 20 := by
  have hmem : ∀ (dataset : List String) (d : Int) (x : String),
      randomColorSelection dataset d = some x → x ∈ dataset := by
    intro ds d x h
    unfold randomColorSelection randint at h
    by_cases hcond : (0 : Int) ≤ (ds.length : Int) - 1 ∧ 0 ≤ d ∧ d ≤ (ds.length : Int) - 1
    · rw [if_pos hcond] at h
      simp only [Option.some_bind] at h
      obtain ⟨hlt, hget⟩ := List.get?_eq_some.mp h
      rw [← hget]
      exact List.get_mem _ _ _
    · rw [if_neg hcond] at h
      simp at h
  refine ⟨hmem, ?_, ?_, ?_, by decide, by decide⟩
  · intro ds d hne h0 hle
    have hpos : 0 < ds.length := List.length_pos.mpr hne
    have hcond : (0 : Int) ≤ (ds.length : Int) - 1 ∧ 0 ≤ d ∧ d ≤ (ds.length : Int) - 1 := by
      omega
    unfold randomColorSelection randint
    rw [if_pos hcond]
    simp only [Option.some_bind]
    have hlt : d.toNat < ds.length := by omega
    rw [List.get?_eq_get hlt]
    rfl
  · intro d
    unfold randomColorSelection randint
    rw [if_neg (by simp)]
    rfl
  · intro d1 d2 c m h
    unfold dataset_arrays at h
    have h1 : randomColorSelection guiColors d1 = some c := congrArg Prod.fst h
    have h2 : randomColorSelection motivational d2 = some m := congrArg Prod.snd h
    exact ⟨hmem _ _ _ h1, hmem _ _ _ h2⟩

/-- Witness for C10 at concrete draws 0 and 0. -/
theorem random_selection_in_bounds_witness :
    "green" ∈ guiColors
    ∧ "Wealth is not just about having money; it’s about having time and freedom." ∈ motivational :=
  random_selection_in_bounds.2.2.2.1 0 0 "green"
    "Wealth is not just about having money; it’s about having time and freedom." (by decide)

end CryptoSpec
